import Mathlib

/-!
Verification of the Article-Finder offline retriever.

This file gives a shallow embedding, in Lean 4, of the parts of the
repository that the specification's testable claims are about:

* `app/normalize.py` — `normalize_text`
* `app/retrieval.py` — the live `Retriever.search` (the uncommented class),
  its `_normalize_scores`, `_highlight_keywords` and
  `_assign_roles_from_filename` helpers
* `scripts/01_chunk_pdfs.py` — `assign_roles_from_filename`,
  `chunk_text_universal` and `_locate_line_position`

Modelling conventions:

* Python `float` score arithmetic is modelled over `ℚ`; `round(x, 3)` is
  modelled as rounding `x * 1000` to the nearest integer (Python uses
  round-half-to-even on binary floats; the claims proved here only use
  monotonicity and fixed points of rounding, on which the two agree).
* Python strings are modelled as `List Char` / `String`; `str.lower` is
  modelled by `Char.toLower`, which agrees with Python on ASCII (the model
  does not lower non-ASCII letters).  The Python whitespace class `\s` and
  `str.split`/`str.strip` whitespace are modelled by the six ASCII
  whitespace characters.
* `numpy.argsort(-fused)` uses an unstable sort (`kind` defaults to
  `quicksort`), so the order it produces on tied scores is unspecified.
  The ranked index array is therefore a parameter of the embedded `search`,
  constrained only by the predicate `IsArgsortDesc` that any `argsort`
  result satisfies.  Likewise the BM25 and FAISS raw score vectors, which
  come from external libraries, are parameters.
* Python list indexing `meta_json[i]` would raise on an out-of-range
  index; the embedding skips such indices (`List.get?` returning `none`).
  All indices produced by `argsort` are in range, so the two agree on
  every run the code can actually perform.
* `re.finditer` output in the chunker is a parameter: a list of match
  start positions with captured labels, constrained in theorems by the
  guarantees `finditer` documents (matches are non-overlapping and listed
  in strictly increasing position order, inside the text).
-/

namespace ArticleFinder

/-- Python whitespace characters (the ASCII part of `\s`, also used by
`str.strip()` and `str.split()`): space, tab, newline, carriage return,
vertical tab, form feed. -/
def isSpaceChar (c : Char) : Bool :=
  c = ' ' || c = '\t' || c = '\n' || c = '\r' || c = Char.ofNat 11 || c = Char.ofNat 12

/-- Replacement of typographic quotes performed by `normalize_text`:
left double quote (U+201C) and right double quote (U+201D) become `"`
(U+0022), right single quote (U+2019) becomes the apostrophe (U+0027).
Each Python `str.replace` call here is single-character to
single-character, so the three together are a character map. -/
def replQChar (c : Char) : Char :=
  if c = Char.ofNat 8220 then Char.ofNat 34
  else if c = Char.ofNat 8221 then Char.ofNat 34
  else if c = Char.ofNat 8217 then Char.ofNat 39
  else c

/-- Model of the regex substitution `re.sub(r'\s+', ' ', text)`: every
maximal run of whitespace characters is replaced by a single space. -/
def collapseWS : List Char → List Char
  | [] => []
  | [c] => if isSpaceChar c then [' '] else [c]
  | c :: d :: rest =>
    if isSpaceChar c then
      if isSpaceChar d then collapseWS (d :: rest)
      else ' ' :: collapseWS (d :: rest)
    else c :: collapseWS (d :: rest)

/-- Model of Python `str.strip()`: drop whitespace from both ends. -/
def stripList (l : List Char) : List Char :=
  ((l.dropWhile isSpaceChar).reverse.dropWhile isSpaceChar).reverse

/-- Embedding of `normalize_text` from `app/normalize.py`: lowercase,
canonicalize typographic quotes, collapse whitespace runs to single
spaces, strip the ends. -/
def normalize_text (s : String) : String :=
  String.mk (stripList (collapseWS ((s.data.map Char.toLower).map replQChar)))

/-- Model of Python `str.split()` (split on whitespace runs, no empty
tokens): accumulator-based splitter over the character list. -/
def splitWSAux : List Char → List Char → List (List Char)
  | [], cur => if cur.isEmpty then [] else [cur.reverse]
  | c :: rest, cur =>
    if isSpaceChar c then
      if cur.isEmpty then splitWSAux rest [] else cur.reverse :: splitWSAux rest []
    else splitWSAux rest (c :: cur)

/-- Tokens of a string under Python `str.split()`. -/
def splitWS (s : String) : List String :=
  (splitWSAux s.data []).map String.mk

/-- Number of whitespace-separated words, `len(s.split())`. -/
def countWords (l : List Char) : ℕ :=
  (splitWSAux l []).length

/-- Model of the Python substring test `needle in hay` on lists of
characters. -/
def isSubLst (needle hay : List Char) : Bool :=
  if needle.isPrefixOf hay then true
  else
    match hay with
    | [] => false
    | _ :: t => isSubLst needle t

/-- Python `needle in hay` on strings. -/
def strContains (hay needle : String) : Bool :=
  isSubLst needle.data hay.data

/-- Python `s.lower()` (ASCII model). -/
def lowerStr (s : String) : String :=
  String.mk (s.data.map Char.toLower)

/-- Python `s.strip()` on strings. -/
def stripStr (s : String) : String :=
  String.mk (stripList s.data)

/-- Python `s[:n]` character-slice prefix. -/
def strTake (s : String) (n : ℕ) : String :=
  String.mk (s.data.take n)

/-- Opening highlight tag emitted by `_highlight_keywords` (an HTML
`mark` element with an inline style attribute, quoted with U+0027). -/
def markOpen : List Char :=
  "<mark style=".data ++ [Char.ofNat 39] ++ "background:yellow;font-weight:bold;".data
    ++ [Char.ofNat 39] ++ ">".data

/-- Closing highlight tag emitted by `_highlight_keywords`. -/
def markClose : List Char :=
  "</mark>".data

/-- Case-insensitive prefix test used to model `re.IGNORECASE` matching
of a literal (regex-escaped) token. -/
def ciPref (tok text : List Char) : Bool :=
  (text.take tok.length).map Char.toLower = tok.map Char.toLower
    && decide (tok.length ≤ text.length)

/-- Model of `re.sub(re.escape(tok), wrap, text, re.IGNORECASE)`:
replace every non-overlapping occurrence of `tok`, scanning left to
right, wrapping the original matched characters in the mark tags.
`fuel` bounds the recursion by the length of `text`; each step consumes
at least one character of `text` as long as `tok` is non-empty. -/
def subCI (tok : List Char) : ℕ → List Char → List Char
  | 0, text => text
  | _ + 1, [] => []
  | fuel + 1, c :: rest =>
    if tok.isEmpty then c :: rest
    else if ciPref tok (c :: rest) then
      markOpen ++ (c :: rest).take tok.length ++ markClose
        ++ subCI tok fuel ((c :: rest).drop tok.length)
    else c :: subCI tok fuel rest

/-- Embedding of `Retriever._highlight_keywords`: fold the substitution
over the token list, skipping tokens that strip to nothing. -/
def highlightKeywords (text : String) (tokens : List String) : String :=
  tokens.foldl
    (fun acc tok =>
      if (stripList tok.data).isEmpty then acc
      else String.mk (subCI tok.data acc.data.length acc.data))
    text

/-- Chunk metadata record as stored in `meta_json` (one JSON object per
chunk).  The `roles` key may be absent in a record, which Python reads
with `chunk.get("roles", default)`; this is modelled with `Option`. -/
structure Chunk where
  doc_id : String
  article_no : String
  page_start : ℕ
  page_end : ℕ
  text : String
  norm_text : String
  roles : Option (List String)
  deriving DecidableEq, Repr, Inhabited

/-- Result record appended to `results` by `Retriever.search`. -/
structure ResultItem where
  doc_id : String
  article_no : String
  page_start : ℕ
  page_end : ℕ
  score : ℚ
  roles : List String
  excerpt : String
  deriving DecidableEq, Repr, Inhabited

/-- Return value of `Retriever.search`. -/
structure SearchOutput where
  answer : String
  results : List ResultItem
  deriving DecidableEq, Repr

/-- Embedding of `Retriever._assign_roles_from_filename` (identical to
`assign_roles_from_filename` in `scripts/01_chunk_pdfs.py`): restricted
filenames get `["legal", "admin"]`, everything else the full set. -/
def assign_roles_from_filename (filename : String) : List String :=
  if strContains (lowerStr filename) "restricted" then ["legal", "admin"]
  else ["staff", "legal", "admin"]

/-- Python `set(roles).intersection(set(chunkRoles))` non-emptiness:
exact, case-sensitive string membership. -/
def rolesIntersect (roles chunkRoles : List String) : Bool :=
  roles.any (fun r => chunkRoles.contains r)

/-- Modelled from the spec: the case-insensitive role-set intersection
test the spec describes ("Role matching uses case-insensitive set
intersection").  The source has no such function; this definition exists
only to compare the spec's wording with the code's `rolesIntersect`. -/
def rolesIntersectCI (roles chunkRoles : List String) : Bool :=
  roles.any (fun r => chunkRoles.any (fun s => lowerStr r = lowerStr s))

/-- Embedding of `Retriever._normalize_scores`: min-max normalization to
`[0, 1]`, returning all zeros when the scores are empty or constant; the
denominator carries numpy's `1e-8` guard. -/
def normalizeScores (scores : List ℚ) : List ℚ :=
  match scores with
  | [] => []
  | s :: rest =>
    let mx := (s :: rest).foldl max s
    let mn := (s :: rest).foldl min s
    if mx = mn then List.replicate (s :: rest).length 0
    else (s :: rest).map (fun x => (x - mn) / (mx - mn + 1 / 100000000))

/-- The eight boosted legal keywords in `Retriever.search`. -/
def importantKeywords : List String :=
  ["criminal", "penalty", "inspection", "violation", "fine", "offence", "law", "license"]

/-- Elementwise fusion `alpha * vec_norm + (1 - alpha) * bm25_norm`. -/
def fusedBase (alpha : ℚ) (vecN bm25N : List ℚ) : List ℚ :=
  List.zipWith (fun v b => alpha * v + (1 - alpha) * b) vecN bm25N

/-- The two boost loops of `Retriever.search`: `+0.15` for every
important keyword contained in the chunk's `norm_text`, then `+0.25`
when the lowercased stripped query is contained in `norm_text`. -/
def applyBoosts (meta : List Chunk) (queryLower : String) (fus : List ℚ) : List ℚ :=
  List.zipWith
    (fun chunk f =>
      let f1 := importantKeywords.foldl
        (fun acc w => if strContains chunk.norm_text w then acc + 3 / 20 else acc) f
      if strContains chunk.norm_text queryLower then f1 + 1 / 4 else f1)
    meta fus

/-- Fused score vector of `Retriever.search` as a function of the raw
BM25 and FAISS score vectors. -/
def fusedOf (alpha : ℚ) (bm25Scores vecScores : List ℚ) (meta : List Chunk)
    (queryLower : String) : List ℚ :=
  applyBoosts meta queryLower
    (fusedBase alpha (normalizeScores vecScores) (normalizeScores bm25Scores))

/-- Python `round(float(x), 3)` modelled on `ℚ`. -/
def round3 (q : ℚ) : ℚ :=
  (round (q * 1000) : ℤ) / 1000

/-- The result record the primary pass appends for a surviving chunk. -/
def primaryItem (chunk : Chunk) (f : ℚ) (cr : List String) (tokens : List String) :
    ResultItem :=
  { doc_id := chunk.doc_id
    article_no := chunk.article_no
    page_start := chunk.page_start
    page_end := chunk.page_end
    score := round3 f
    roles := cr
    excerpt := highlightKeywords (strTake chunk.text 700) tokens }

/-- Body of the primary ranked-iteration loop for one index: role filter
(`roles` falling back to the filename-derived default), then the `0.05`
relevance floor, then the appended record. -/
def primaryStep (roles : List String) (tokens : List String) (meta : List Chunk)
    (fus : List ℚ) (i : ℕ) : Option ResultItem :=
  match meta[i]?, fus[i]? with
  | some chunk, some f =>
    if rolesIntersect roles (chunk.roles.getD (assign_roles_from_filename chunk.doc_id)) then
      if f < 1 / 20 then none
      else some
        (primaryItem chunk f (chunk.roles.getD (assign_roles_from_filename chunk.doc_id)) tokens)
    else none
  | _, _ => none

/-- The primary loop over the ranked indices, with the source's `break`
placed after the append: once `count + 1` reaches `topk` the loop stops
with the freshly appended item included. -/
def primaryLoop (roles tokens : List String) (meta : List Chunk) (fus : List ℚ)
    (topk : ℕ) : List ℕ → ℕ → List ResultItem
  | [], _ => []
  | i :: rest, count =>
    match primaryStep roles tokens meta fus i with
    | none => primaryLoop roles tokens meta fus topk rest count
    | some item =>
      if topk ≤ count + 1 then [item]
      else item :: primaryLoop roles tokens meta fus topk rest (count + 1)

/-- The result record the fallback pass appends for a role-permitted
chunk: the reported score is the normalized BM25 score and the roles
field is `chunk.get("roles", [])`. -/
def fallbackItem (chunk : Chunk) (b : ℚ) (tokens : List String) : ResultItem :=
  { doc_id := chunk.doc_id
    article_no := chunk.article_no
    page_start := chunk.page_start
    page_end := chunk.page_end
    score := round3 b
    roles := chunk.roles.getD []
    excerpt := highlightKeywords (strTake chunk.text 700) tokens }

/-- Body of the fallback loop for one index: the role filter here reads
`chunk.get("roles", [])`, so a missing `roles` key defaults to the empty
list. -/
def fallbackStep (roles tokens : List String) (meta : List Chunk) (bm25N : List ℚ)
    (i : ℕ) : Option ResultItem :=
  match meta[i]?, bm25N[i]? with
  | some chunk, some b =>
    if rolesIntersect roles (chunk.roles.getD []) then some (fallbackItem chunk b tokens)
    else none
  | _, _ => none

/-- The fallback pass: iterate the first `topk` indices of the BM25
ranking and keep the role-permitted ones (no floor, no break). -/
def fallbackResults (roles tokens : List String) (meta : List Chunk) (bm25N : List ℚ)
    (rankedFB : List ℕ) (topk : ℕ) : List ResultItem :=
  (rankedFB.take topk).filterMap (fallbackStep roles tokens meta bm25N)

/-- Sentinel answer returned when both passes produce nothing. -/
def noRelevantSentinel : String :=
  "❌ No relevant article found."

/-- What `numpy.argsort(-scores)` guarantees about its output — and all
it guarantees, since the default sort kind is unstable: the output is a
permutation of the index range along which the scores are
non-increasing. -/
def IsArgsortDesc (scores : List ℚ) (perm : List ℕ) : Prop :=
  List.Perm perm (List.range scores.length) ∧
    perm.Pairwise (fun a b => scores.getD b 0 ≤ scores.getD a 0)

/-- Embedding of the live `Retriever.search` (hybrid scoring, keyword
and literal boosts, ranked iteration with role filter, floor and `topk`
break, BM25 fallback, sentinel answer).  `rankedIdx` and `rankedFB`
stand for `np.argsort(-fused)` and `np.argsort(-bm25_norm)`. -/
def search (meta : List Chunk) (alpha : ℚ) (bm25Scores vecScores : List ℚ)
    (query : String) (roles : List String) (topk : ℕ)
    (rankedIdx rankedFB : List ℕ) : SearchOutput :=
  let tokens := splitWS (normalize_text query)
  let queryLower := stripStr (lowerStr query)
  let bm25N := normalizeScores bm25Scores
  let fus := fusedOf alpha bm25Scores vecScores meta queryLower
  let primary := primaryLoop roles tokens meta fus topk rankedIdx 0
  let res :=
    if primary.isEmpty then fallbackResults roles tokens meta bm25N rankedFB topk
    else primary
  { answer :=
      match res with
      | [] => noRelevantSentinel
      | item :: _ => item.excerpt
    results := res }

/-- The primary results on their own (used to state primary-pass-only
claims). -/
def primaryResults (meta : List Chunk) (alpha : ℚ) (bm25Scores vecScores : List ℚ)
    (query : String) (roles : List String) (topk : ℕ) (rankedIdx : List ℕ) :
    List ResultItem :=
  primaryLoop roles (splitWS (normalize_text query)) meta
    (fusedOf alpha bm25Scores vecScores meta (stripStr (lowerStr query))) topk rankedIdx 0

/-- One extracted line from `extract_text_with_lines` in
`scripts/01_chunk_pdfs.py`: page number, per-page line number, text. -/
structure LineRec where
  page_num : ℕ
  line_num : ℕ
  text : String
  deriving DecidableEq, Repr

/-- One chunk produced by `chunk_text_universal`. -/
structure ChunkOut where
  article_no : String
  page_start : ℕ
  page_end : ℕ
  line_start : ℕ
  line_end : ℕ
  text : String
  deriving DecidableEq, Repr, Inhabited

/-- Search phase of `_locate_line_position`: walk the lines keeping the
cumulative character offset, returning the first line whose window
`[cumulative, cumulative + len(text) + 1 + window)` contains the index. -/
def locateFind (ls : List LineRec) (c : ℕ) (cum : ℕ) (window : ℕ) : Option LineRec :=
  match ls with
  | [] => none
  | l :: rest =>
    if cum ≤ c ∧ c < cum + (l.text.length + 1) + window then some l
    else locateFind rest c (cum + (l.text.length + 1)) window

/-- Embedding of `_locate_line_position(lines, char_index, window=250)`:
the found line, or the last line when the walk falls off the end (the
Python code returns `lines[-1]` there).  An empty `lines` list, on which
Python would raise, yields the placeholder line. -/
def locateLineRec (lines : List LineRec) (c : ℕ) : LineRec :=
  (locateFind lines c 0 250).getD (lines.getLastD ⟨0, 0, ""⟩)

/-- The text joined with newlines, `"\n".join(l["text"] for l in lines)`. -/
def joinTexts : List LineRec → List Char
  | [] => []
  | [l] => l.text.data
  | l :: rest => l.text.data ++ '\n' :: joinTexts rest

/-- Structured (Article/Section/Chapter) pass of `chunk_text_universal`:
each regex match starts a chunk running to the next match start (or text
end), with page/line attribution through `_locate_line_position`.
`matches` carries each match's start offset and captured label. -/
def structuredChunks (lines : List LineRec) (textLen : ℕ) (fullText : List Char) :
    List (ℕ × String) → List ChunkOut
  | [] => []
  | (s, lab) :: rest =>
    let e := match rest with
      | [] => textLen
      | (s2, _) :: _ => s2
    let recS := locateLineRec lines s
    let recE := locateLineRec lines e
    { article_no := lab
      page_start := recS.page_num
      page_end := recE.page_num
      line_start := recS.line_num
      line_end := recE.line_num
      text := String.mk (stripList ((fullText.drop s).take (e - s))) }
      :: structuredChunks lines textLen fullText rest

/-- Word-count fallback loop of `chunk_text_universal`: accumulate lines
into a buffer, emit a chunk when the running word count reaches 350,
then emit the leftover buffer (if it strips non-empty) with the page and
line of the document's last line.  State mirrors the Python locals
`buffer`, `chunk_start is None`, `start_page`, `start_line`,
`word_count`. -/
def fbLoop (artNo : String) (last : LineRec) :
    List LineRec → List Char → Bool → ℕ → ℕ → ℕ → List ChunkOut
  | [], buffer, _, sp, sl, _ =>
    if (stripList buffer).isEmpty then []
    else [⟨artNo, sp, last.page_num, sl, last.line_num, String.mk (stripList buffer)⟩]
  | l :: rest, buffer, started, sp, sl, wc =>
    let sp' := if started then sp else l.page_num
    let sl' := if started then sl else l.line_num
    let buffer' := buffer ++ ' ' :: l.text.data
    let wc' := wc + countWords l.text.data
    if 350 ≤ wc' then
      ⟨artNo, sp', l.page_num, sl', l.line_num, String.mk (stripList buffer')⟩
        :: fbLoop artNo last rest [] false sp' sl' 0
    else fbLoop artNo last rest buffer' true sp' sl' wc'

/-- Fallback pass entry: Python initializes `start_page, start_line`
from `lines[0]` (raising on an empty list, which the caller prevents;
the model returns no chunks there). -/
def fallbackChunks (lines : List LineRec) : List ChunkOut :=
  match lines with
  | [] => []
  | l0 :: _ => fbLoop "0" (lines.getLastD l0) lines [] false l0.page_num l0.line_num 0

/-- Embedding of `chunk_text_universal`: the structured pass when the
heading regex matched anywhere, otherwise the word-count fallback. -/
def chunk_text_universal (lines : List LineRec) (ms : List (ℕ × String)) :
    List ChunkOut :=
  if ms.isEmpty then fallbackChunks lines
  else structuredChunks lines (joinTexts lines).length (joinTexts lines) ms

/-- What `re.finditer` guarantees about the match list: matches are
reported in increasing position order without overlap (so start offsets
are strictly increasing) and every match starts inside the text. -/
def FinditerShape (ms : List (ℕ × String)) (textLen : ℕ) : Prop :=
  ms.Chain' (fun a b => a.1 < b.1) ∧ ∀ m ∈ ms, m.1 ≤ textLen

/-- Pages of the extracted lines are in non-decreasing reading order. -/
def PagesMono (lines : List LineRec) : Prop :=
  lines.Pairwise (fun a b => a.page_num ≤ b.page_num)

/-- Concrete data used by witnesses and counterexamples below.  A chunk
whose normalized text contains the keywords `criminal` and `law`. -/
def chunkA : Chunk :=
  { doc_id := "doc0", article_no := "1", page_start := 1, page_end := 2,
    text := "Criminal law text", norm_text := "criminal law text",
    roles := some ["staff"] }

/-- A second chunk with the same scores as `chunkA` but a different
document id, for the tie-break counterexample. -/
def chunkB : Chunk :=
  { doc_id := "doc1", article_no := "2", page_start := 3, page_end := 4,
    text := "Criminal law text", norm_text := "criminal law text",
    roles := some ["staff"] }

/-- A chunk record with no stored `roles` key. -/
def chunkNoRoles : Chunk :=
  { doc_id := "handbook", article_no := "1", page_start := 1, page_end := 1,
    text := "general guidance", norm_text := "general guidance",
    roles := none }

/-- A chunk whose normalized text contains the whitespace-normalized
form of the query `"a  b"` but not its raw lowercased form, and no
boosted keyword. -/
def chunkC2 : Chunk :=
  { doc_id := "doc2", article_no := "3", page_start := 1, page_end := 1,
    text := "x a b y", norm_text := "x a b y",
    roles := some ["staff"] }

/-- The result item the primary pass produces for `chunkA` under the
query `"law"` (fused score `11/20`). -/
def itemA : ResultItem :=
  primaryItem chunkA (11 / 20) ["staff"] ["law"]

/-- The result item the primary pass produces for `chunkA` under the
query `"zzz"` (fused score `3/10`). -/
def itemA2 : ResultItem :=
  primaryItem chunkA (3 / 10) ["staff"] ["zzz"]

/-- The result item the primary pass produces for `chunkB` under the
query `"zzz"` (fused score `3/10`). -/
def itemB2 : ResultItem :=
  primaryItem chunkB (3 / 10) ["staff"] ["zzz"]

/-- Two extracted lines on consecutive pages, used as chunker witness
data. -/
def linesW : List LineRec :=
  [⟨1, 1, "Article 1 intro"⟩, ⟨2, 1, "Article 2 text"⟩]

/-- Two regex matches (start offset and captured label) over the joined
text of `linesW`. -/
def msW : List (ℕ × String) :=
  [(0, "1"), (16, "2")]

/-- Shape of a whitespace-collapsed character list: every whitespace
character is a plain space and no two consecutive characters are both
whitespace. -/
def WSGood (l : List Char) : Prop :=
  (∀ c ∈ l, isSpaceChar c = true → c = ' ') ∧
    l.Chain' (fun a b => ¬(isSpaceChar a = true ∧ isSpaceChar b = true))

/-! ## Helper lemmas -/

theorem charToNat_ofNat_of_lt {n : ℕ} (h : n < 55296) : (Char.ofNat n).toNat = n := by
  have hv : n.isValidChar := Or.inl h
  rw [Char.ofNat, dif_pos hv]
  rfl

theorem toLower_eq_self {c : Char} (h : ¬(65 ≤ c.toNat ∧ c.toNat ≤ 90)) :
    Char.toLower c = c := by
  simp only [Char.toLower, Char.toNat]
  rw [if_neg]
  exact fun hc => h ⟨hc.1, hc.2⟩

theorem toLower_toLower (c : Char) : Char.toLower (Char.toLower c) = Char.toLower c := by
  by_cases h : 65 ≤ c.toNat ∧ c.toNat ≤ 90
  · have h1 : Char.toLower c = Char.ofNat (c.toNat + 32) := by
      simp only [Char.toLower, Char.toNat]
      rw [if_pos]
      exact ⟨h.1, h.2⟩
    have h2 : (Char.toLower c).toNat = c.toNat + 32 := by
      rw [h1]
      exact charToNat_ofNat_of_lt (by omega)
    apply toLower_eq_self
    omega
  · rw [toLower_eq_self h, toLower_eq_self h]

theorem replQChar_replQChar (c : Char) : replQChar (replQChar c) = replQChar c := by
  unfold replQChar
  split
  · decide
  · split
    · decide
    · split
      · decide
      · simp_all

theorem toLower_replQChar_toLower (c : Char) :
    Char.toLower (replQChar (Char.toLower c)) = replQChar (Char.toLower c) := by
  unfold replQChar
  split
  · decide
  · split
    · decide
    · split
      · decide
      · exact toLower_toLower c

theorem mem_collapseWS {c : Char} : ∀ {l : List Char}, c ∈ collapseWS l → c ∈ l ∨ c = ' '
  | [], h => by simp [collapseWS] at h
  | [d], h => by
    simp only [collapseWS] at h
    split at h <;> simp_all
  | d :: e :: rest, h => by
    simp only [collapseWS] at h
    split at h
    · split at h
      · rcases mem_collapseWS h with h' | h'
        · exact Or.inl (List.mem_cons_of_mem _ h')
        · exact Or.inr h'
      · rcases List.mem_cons.1 h with h' | h'
        · exact Or.inr h'
        · rcases mem_collapseWS h' with h'' | h''
          · exact Or.inl (List.mem_cons_of_mem _ h'')
          · exact Or.inr h''
    · rcases List.mem_cons.1 h with h' | h'
      · exact Or.inl (h' ▸ List.mem_cons_self _ _)
      · rcases mem_collapseWS h' with h'' | h''
        · exact Or.inl (List.mem_cons_of_mem _ h'')
        · exact Or.inr h''

theorem mem_stripList {c : Char} {l : List Char} (h : c ∈ stripList l) : c ∈ l := by
  unfold stripList at h
  rw [List.mem_reverse] at h
  have h1 := ((List.dropWhile_suffix isSpaceChar).sublist).mem h
  rw [List.mem_reverse] at h1
  exact ((List.dropWhile_suffix isSpaceChar).sublist).mem h1

theorem map_id_of_mem {f : Char → Char} :
    ∀ {l : List Char}, (∀ c ∈ l, f c = c) → l.map f = l
  | [], _ => rfl
  | c :: t, h => by
    simp only [List.map_cons, h c (List.mem_cons_self _ _)]
    rw [map_id_of_mem fun d hd => h d (List.mem_cons_of_mem _ hd)]

theorem collapseWS_cons_nonspace {d : Char} (hd : isSpaceChar d = false) (rest : List Char) :
    ∃ t, collapseWS (d :: rest) = d :: t := by
  cases rest with
  | nil => exact ⟨[], by simp [collapseWS, hd]⟩
  | cons e r => exact ⟨collapseWS (e :: r), by simp [collapseWS, hd]⟩

theorem wsGood_collapseWS : ∀ l : List Char, WSGood (collapseWS l)
  | [] => ⟨by simp [collapseWS], by simp [collapseWS]⟩
  | [c] => by
    refine ⟨?_, ?_⟩
    · intro d hd hds
      simp only [collapseWS] at hd
      split at hd
      · exact List.mem_singleton.1 hd
      · rename_i hs
        rw [List.mem_singleton] at hd
        subst hd
        exact absurd hds hs
    · simp only [collapseWS]
      split <;> simp
  | c :: d :: rest => by
    have ih := wsGood_collapseWS (d :: rest)
    simp only [collapseWS]
    split
    · split
      · exact ih
      · rename_i hc hd
        refine ⟨?_, ?_⟩
        · intro x hx hxs
          rcases List.mem_cons.1 hx with h' | h'
          · exact h'
          · exact ih.1 x h' hxs
        · rw [List.chain'_cons']
          refine ⟨?_, ih.2⟩
          intro b hb
          rcases collapseWS_cons_nonspace (Bool.not_eq_true _ ▸ hd) rest with ⟨t, ht⟩
          rw [ht] at hb
          simp only [List.head?_cons, Option.mem_def, Option.some.injEq] at hb
          subst hb
          simp [hd]
    · rename_i hc
      refine ⟨?_, ?_⟩
      · intro x hx hxs
        rcases List.mem_cons.1 hx with h' | h'
        · subst h'
          simp [hxs] at hc
        · exact ih.1 x h' hxs
      · rw [List.chain'_cons']
        refine ⟨?_, ih.2⟩
        intro b _
        simp [hc]

theorem collapseWS_eq_self : ∀ {l : List Char}, WSGood l → collapseWS l = l
  | [], _ => rfl
  | [c], h => by
    simp only [collapseWS]
    split
    · rename_i hs
      rw [h.1 c (List.mem_cons_self _ _) hs]
    · rfl
  | c :: d :: rest, h => by
    have htail : WSGood (d :: rest) :=
      ⟨fun x hx => h.1 x (List.mem_cons_of_mem _ hx), h.2.tail⟩
    have hrel := List.chain'_cons.1 h.2
    simp only [collapseWS]
    split
    · rename_i hc
      split
      · rename_i hd
        exact absurd ⟨hc, hd⟩ hrel.1
      · rw [collapseWS_eq_self htail, h.1 c (List.mem_cons_self _ _) hc]
    · rw [collapseWS_eq_self htail]

theorem chain'_stripList {R : Char → Char → Prop}
    {l : List Char} (h : l.Chain' R) : (stripList l).Chain' R := by
  unfold stripList
  rw [List.chain'_reverse]
  have h1 : (l.dropWhile isSpaceChar).Chain' R :=
    h.suffix (List.dropWhile_suffix isSpaceChar)
  have h2 : (l.dropWhile isSpaceChar).reverse.Chain' (flip R) := by
    rw [List.chain'_reverse]
    exact h1.imp fun a b hab => hab
  exact h2.suffix (List.dropWhile_suffix isSpaceChar)

theorem wsGood_stripList {l : List Char} (h : WSGood l) : WSGood (stripList l) :=
  ⟨fun c hc => h.1 c (mem_stripList hc), chain'_stripList h.2⟩

theorem head_dropWhile_not {p : Char → Bool} :
    ∀ {l : List Char} {c : Char}, c ∈ (l.dropWhile p).head? → p c = false
  | [], c, h => by simp at h
  | d :: t, c, h => by
    rw [List.dropWhile_cons] at h
    split at h
    · exact head_dropWhile_not h
    · simp only [List.head?_cons, Option.mem_def, Option.some.injEq] at h
      subst h
      simp_all

theorem dropWhile_eq_self_of_head {p : Char → Bool} {l : List Char}
    (h : ∀ c ∈ l.head?, p c = false) : l.dropWhile p = l := by
  cases l with
  | nil => rfl
  | cons c t =>
    rw [List.dropWhile_cons, if_neg]
    simp [h c rfl]

theorem dropWhile_dropWhile {p : Char → Bool} (l : List Char) :
    (l.dropWhile p).dropWhile p = l.dropWhile p :=
  dropWhile_eq_self_of_head fun _ hc => head_dropWhile_not hc

theorem getLast?_of_suffix {l1 l2 : List Char} (h : l1 <:+ l2) (hne : l1 ≠ []) :
    l1.getLast? = l2.getLast? := by
  rcases h with ⟨pre, rfl⟩
  rw [List.getLast?_append]
  cases hx : l1.getLast? with
  | none =>
    rcases l1 with _ | ⟨y, ys⟩
    · exact absurd rfl hne
    · simp [List.getLast?_eq_getLast] at hx
  | some y => simp [Option.or]

theorem stripList_idem (l : List Char) : stripList (stripList l) = stripList l := by
  have hDS : (stripList l).dropWhile isSpaceChar = stripList l := by
    apply dropWhile_eq_self_of_head
    intro c hc
    unfold stripList at hc
    rw [List.head?_reverse] at hc
    rcases hx : ((l.dropWhile isSpaceChar).reverse.dropWhile isSpaceChar) with _ | ⟨y, ys⟩
    · rw [hx] at hc
      simp at hc
    · have hne : (l.dropWhile isSpaceChar).reverse.dropWhile isSpaceChar ≠ [] := by
        rw [hx]
        exact List.cons_ne_nil y ys
      rw [getLast?_of_suffix (List.dropWhile_suffix isSpaceChar) hne,
        List.getLast?_reverse] at hc
      exact head_dropWhile_not hc
  have hrev : (stripList l).reverse = (l.dropWhile isSpaceChar).reverse.dropWhile isSpaceChar := by
    unfold stripList
    rw [List.reverse_reverse]
  calc stripList (stripList l)
      = (((stripList l).dropWhile isSpaceChar).reverse.dropWhile isSpaceChar).reverse := rfl
    _ = ((stripList l).reverse.dropWhile isSpaceChar).reverse := by rw [hDS]
    _ = (stripList l).reverse.reverse := by rw [hrev, dropWhile_dropWhile, ← hrev]
    _ = stripList l := List.reverse_reverse _

/-! ## Claim theorems -/

/-- C10.  Normalization idempotence and totality: `normalize_text` is a
total Lean function (so it has no error conditions by construction),
applying it twice gives the same result as applying it once for every
string, and the empty string maps to the empty string. -/
theorem C10_normalize_idempotent (s : String) :
    normalize_text (normalize_text s) = normalize_text s ∧ normalize_text "" = "" := by
  constructor
  · have hout : (normalize_text s).data
        = stripList (collapseWS ((s.data.map Char.toLower).map replQChar)) := rfl
    set out := stripList (collapseWS ((s.data.map Char.toLower).map replQChar)) with hdef
    have hfix : ∀ c ∈ out, Char.toLower c = c ∧ replQChar c = c := by
      intro c hc
      have hc1 := mem_stripList hc
      rcases mem_collapseWS hc1 with h' | h'
      · rcases List.mem_map.1 h' with ⟨d', hd', rfl⟩
        rcases List.mem_map.1 hd' with ⟨d, _, rfl⟩
        exact ⟨toLower_replQChar_toLower d, replQChar_replQChar _⟩
      · subst h'
        exact ⟨by decide, by decide⟩
    have hlow : out.map Char.toLower = out := map_id_of_mem fun c hc => (hfix c hc).1
    have hrep : out.map replQChar = out := map_id_of_mem fun c hc => (hfix c hc).2
    have hgood : WSGood out := wsGood_stripList (wsGood_collapseWS _)
    have hcoll : collapseWS out = out := collapseWS_eq_self hgood
    have hstrip : stripList out = out := by
      rw [hdef]
      exact stripList_idem _
    have key : stripList (collapseWS (((normalize_text s).data.map Char.toLower).map replQChar))
        = (normalize_text s).data := by
      rw [hout, hlow, hrep, hcoll, hstrip]
    show String.mk (stripList (collapseWS (((normalize_text s).data.map Char.toLower).map replQChar)))
        = normalize_text s
    rw [key]
  · rfl

theorem round3_mono {a b : ℚ} (h : a ≤ b) : round3 a ≤ round3 b := by
  unfold round3
  have h1 : round (a * 1000) ≤ round (b * 1000) := by
    rw [round_eq, round_eq]
    exact Int.floor_le_floor (by linarith)
  have h2 : ((round (a * 1000) : ℤ) : ℚ) ≤ ((round (b * 1000) : ℤ) : ℚ) := by
    exact_mod_cast h1
  exact div_le_div_of_nonneg_right h2 (by norm_num)

theorem round3_at_floor : round3 (1 / 20) = 1 / 20 := by
  unfold round3
  have h : (1 / 20 : ℚ) * 1000 = ((50 : ℤ) : ℚ) := by norm_num
  rw [h, round_intCast]
  norm_num

theorem primaryLoop_eq_take (roles tokens : List String) (meta : List Chunk) (fus : List ℚ)
    (topk : ℕ) : ∀ (l : List ℕ) (count : ℕ),
    primaryLoop roles tokens meta fus topk l count
      = (l.filterMap (primaryStep roles tokens meta fus)).take (max (topk - count) 1)
  | [], count => by simp [primaryLoop]
  | i :: rest, count => by
    simp only [primaryLoop, List.filterMap_cons]
    cases hstep : primaryStep roles tokens meta fus i with
    | none =>
      show primaryLoop roles tokens meta fus topk rest count
        = (rest.filterMap (primaryStep roles tokens meta fus)).take (max (topk - count) 1)
      exact primaryLoop_eq_take roles tokens meta fus topk rest count
    | some item =>
      show (if topk ≤ count + 1 then [item]
            else item :: primaryLoop roles tokens meta fus topk rest (count + 1))
        = (item :: rest.filterMap (primaryStep roles tokens meta fus)).take
            (max (topk - count) 1)
      by_cases hc : topk ≤ count + 1
      · rw [if_pos hc]
        have hm : max (topk - count) 1 = 1 := by omega
        rw [hm, List.take_succ_cons, List.take_zero]
      · rw [if_neg hc]
        rw [primaryLoop_eq_take roles tokens meta fus topk rest (count + 1)]
        have hm : max (topk - count) 1 = max (topk - (count + 1)) 1 + 1 := by omega
        rw [hm, List.take_succ_cons]

theorem primaryStep_some {roles tokens : List String} {meta : List Chunk} {fus : List ℚ}
    {i : ℕ} {item : ResultItem}
    (h : primaryStep roles tokens meta fus i = some item) :
    ∃ chunk f, meta[i]? = some chunk ∧ fus[i]? = some f ∧
      rolesIntersect roles (chunk.roles.getD (assign_roles_from_filename chunk.doc_id)) = true ∧
      ¬ f < 1 / 20 ∧
      item = primaryItem chunk f
        (chunk.roles.getD (assign_roles_from_filename chunk.doc_id)) tokens := by
  unfold primaryStep at h
  cases hm : meta[i]? with
  | none => simp [hm] at h
  | some chunk =>
    cases hf : fus[i]? with
    | none => simp [hm, hf] at h
    | some f =>
      simp only [hm, hf] at h
      refine ⟨chunk, f, rfl, rfl, ?_⟩
      split at h
      · split at h
        · exact absurd h (by simp)
        · rename_i hr hfl
          exact ⟨hr, hfl, (Option.some_inj.1 h).symm⟩
      · exact absurd h (by simp)

theorem fallbackStep_some {roles tokens : List String} {meta : List Chunk} {bm25N : List ℚ}
    {i : ℕ} {item : ResultItem}
    (h : fallbackStep roles tokens meta bm25N i = some item) :
    ∃ chunk b, meta[i]? = some chunk ∧ bm25N[i]? = some b ∧
      rolesIntersect roles (chunk.roles.getD []) = true ∧
      item = fallbackItem chunk b tokens := by
  unfold fallbackStep at h
  cases hm : meta[i]? with
  | none => simp [hm] at h
  | some chunk =>
    cases hf : bm25N[i]? with
    | none => simp [hm, hf] at h
    | some b =>
      simp only [hm, hf] at h
      refine ⟨chunk, b, rfl, rfl, ?_⟩
      split at h
      · rename_i hr
        exact ⟨hr, (Option.some_inj.1 h).symm⟩
      · exact absurd h (by simp)

theorem mem_primaryLoop {roles tokens : List String} {meta : List Chunk} {fus : List ℚ}
    {topk : ℕ} {l : List ℕ} {count : ℕ} {item : ResultItem}
    (h : item ∈ primaryLoop roles tokens meta fus topk l count) :
    ∃ i ∈ l, primaryStep roles tokens meta fus i = some item := by
  rw [primaryLoop_eq_take] at h
  have h2 : item ∈ l.filterMap (primaryStep roles tokens meta fus) :=
    (List.take_sublist _ _).subset h
  rcases List.mem_filterMap.1 h2 with ⟨i, hi, hstep⟩
  exact ⟨i, hi, hstep⟩

theorem mem_fallbackResults {roles tokens : List String} {meta : List Chunk} {bm25N : List ℚ}
    {rf : List ℕ} {topk : ℕ} {item : ResultItem}
    (h : item ∈ fallbackResults roles tokens meta bm25N rf topk) :
    ∃ i ∈ rf.take topk, fallbackStep roles tokens meta bm25N i = some item :=
  List.mem_filterMap.1 h

theorem search_results (meta : List Chunk) (alpha : ℚ) (bm25 vec : List ℚ) (query : String)
    (roles : List String) (topk : ℕ) (ri rf : List ℕ) :
    (search meta alpha bm25 vec query roles topk ri rf).results
      = if (primaryResults meta alpha bm25 vec query roles topk ri).isEmpty
          then fallbackResults roles (splitWS (normalize_text query)) meta
            (normalizeScores bm25) rf topk
          else primaryResults meta alpha bm25 vec query roles topk ri := rfl

theorem foldl_keyword (nt : String) (f0 : ℚ) (ws : List String) :
    ws.foldl (fun acc w => if strContains nt w then acc + 3 / 20 else acc) f0
      = f0 + (3 / 20) * ((ws.filter (fun w => strContains nt w)).length : ℚ) := by
  induction ws generalizing f0 with
  | nil => simp
  | cons w ws ih =>
    simp only [List.foldl_cons, List.filter_cons]
    by_cases hw : strContains nt w = true
    · rw [if_pos hw, if_pos hw, ih, List.length_cons]
      push_cast
      ring
    · rw [if_neg hw, if_neg hw, ih]

theorem normalizeScores_zero : normalizeScores [(0 : ℚ)] = [0] := by
  simp [normalizeScores]

theorem normalizeScores_zero2 : normalizeScores [(0 : ℚ), 0] = [0, 0] := by
  simp [normalizeScores]

theorem fusedBase_zero : fusedBase (1 / 2) [(0 : ℚ)] [0] = [0] := by
  norm_num [fusedBase]

theorem fusedBase_zero2 : fusedBase (1 / 2) [(0 : ℚ), 0] [0, 0] = [0, 0] := by
  norm_num [fusedBase]

theorem fusedA_eval :
    fusedOf (1 / 2) [0] [0] [chunkA] (stripStr (lowerStr "law")) = [11 / 20] := by
  unfold fusedOf
  rw [normalizeScores_zero, fusedBase_zero]
  simp only [applyBoosts, List.zipWith]
  rw [foldl_keyword]
  rw [show (importantKeywords.filter (fun w => strContains chunkA.norm_text w)).length = 2
    from by decide]
  rw [if_pos (show strContains chunkA.norm_text (stripStr (lowerStr "law")) = true
    from by decide)]
  norm_num

theorem stepA_eval : primaryStep ["staff"] ["law"] [chunkA] [11 / 20] 0 = some itemA := by
  have hred : primaryStep ["staff"] ["law"] [chunkA] [11 / 20] 0
      = (if rolesIntersect ["staff"]
            (chunkA.roles.getD (assign_roles_from_filename chunkA.doc_id)) then
          if (11 / 20 : ℚ) < 1 / 20 then none
          else some (primaryItem chunkA (11 / 20)
            (chunkA.roles.getD (assign_roles_from_filename chunkA.doc_id)) ["law"])
        else none) := rfl
  rw [hred, if_pos (by decide), if_neg (by norm_num)]
  rfl

theorem primA_eval :
    primaryResults [chunkA] (1 / 2) [0] [0] "law" ["staff"] 5 [0] = [itemA] := by
  unfold primaryResults
  rw [show splitWS (normalize_text "law") = ["law"] from by decide, fusedA_eval]
  have hloop : primaryLoop ["staff"] ["law"] [chunkA] [11 / 20] 5 [0] 0
      = (match primaryStep ["staff"] ["law"] [chunkA] [11 / 20] 0 with
        | none => primaryLoop ["staff"] ["law"] [chunkA] [11 / 20] 5 [] 0
        | some item => if 5 ≤ 0 + 1 then [item]
            else item :: primaryLoop ["staff"] ["law"] [chunkA] [11 / 20] 5 [] 1) := rfl
  rw [hloop, stepA_eval]
  rfl

theorem primD_eval :
    primaryResults [chunkA] (1 / 2) [0] [0] "law" ["staff"] 0 [0] = [itemA] := by
  unfold primaryResults
  rw [show splitWS (normalize_text "law") = ["law"] from by decide, fusedA_eval]
  have hloop : primaryLoop ["staff"] ["law"] [chunkA] [11 / 20] 0 [0] 0
      = (match primaryStep ["staff"] ["law"] [chunkA] [11 / 20] 0 with
        | none => primaryLoop ["staff"] ["law"] [chunkA] [11 / 20] 0 [] 0
        | some item => if 0 ≤ 0 + 1 then [item]
            else item :: primaryLoop ["staff"] ["law"] [chunkA] [11 / 20] 0 [] 1) := rfl
  rw [hloop, stepA_eval]
  rfl

theorem fusedA_zzz_eval :
    fusedOf (1 / 2) [0] [0] [chunkA] (stripStr (lowerStr "zzz")) = [3 / 10] := by
  unfold fusedOf
  rw [normalizeScores_zero, fusedBase_zero]
  simp only [applyBoosts, List.zipWith]
  rw [foldl_keyword]
  rw [show (importantKeywords.filter (fun w => strContains chunkA.norm_text w)).length = 2
    from by decide]
  rw [if_neg (show ¬ strContains chunkA.norm_text (stripStr (lowerStr "zzz")) = true
    from by decide)]
  norm_num

theorem fusedC2b_eval :
    fusedOf (1 / 2) [0] [0] [chunkC2] (stripStr (lowerStr "a  b")) = [0] := by
  unfold fusedOf
  rw [normalizeScores_zero, fusedBase_zero]
  simp only [applyBoosts, List.zipWith]
  rw [foldl_keyword]
  rw [show (importantKeywords.filter (fun w => strContains chunkC2.norm_text w)).length = 0
    from by decide]
  rw [if_neg (show ¬ strContains chunkC2.norm_text (stripStr (lowerStr "a  b")) = true
    from by decide)]
  norm_num

theorem fusedE_eval :
    fusedOf (1 / 2) [0] [0] [chunkNoRoles] (stripStr (lowerStr "zzz")) = [0] := by
  unfold fusedOf
  rw [normalizeScores_zero, fusedBase_zero]
  simp only [applyBoosts, List.zipWith]
  rw [foldl_keyword]
  rw [show (importantKeywords.filter
    (fun w => strContains chunkNoRoles.norm_text w)).length = 0 from by decide]
  rw [if_neg (show ¬ strContains chunkNoRoles.norm_text (stripStr (lowerStr "zzz")) = true
    from by decide)]
  norm_num

theorem normalizeScores_length : ∀ l : List ℚ, (normalizeScores l).length = l.length
  | [] => rfl
  | s :: rest => by
    simp only [normalizeScores]
    split
    · simp
    · simp

theorem zipWith_getD {α β γ : Type} (f : α → β → γ) (da : α) (db : β) (dc : γ) :
    ∀ (l1 : List α) (l2 : List β) (i : ℕ), i < l1.length → i < l2.length →
      (List.zipWith f l1 l2).getD i dc = f (l1.getD i da) (l2.getD i db)
  | [], _, i, h1, _ => absurd h1 (by simp)
  | _ :: _, [], i, _, h2 => absurd h2 (by simp)
  | a :: l1, b :: l2, 0, _, _ => rfl
  | a :: l1, b :: l2, i + 1, h1, h2 => by
    simp only [List.zipWith_cons_cons, List.getD_cons_succ]
    exact zipWith_getD f da db dc l1 l2 i (by simpa using h1) (by simpa using h2)

theorem resA_eval :
    (search [chunkA] (1 / 2) [0] [0] "law" ["staff"] 5 [0] [0]).results = [itemA] := by
  rw [search_results, primA_eval]
  rfl

/-- C1.  Role-filtering safety: every result item returned by `search`
— in the primary pass or the fallback pass — carries a roles list whose
intersection with the caller's requested roles is non-empty; a chunk
whose effective role set does not intersect the caller's roles never
appears, whatever its fused score. -/
theorem C1_role_filter_safety (meta : List Chunk) (alpha : ℚ) (bm25 vec : List ℚ)
    (query : String) (roles : List String) (topk : ℕ) (ri rf : List ℕ) :
    ∀ item ∈ (search meta alpha bm25 vec query roles topk ri rf).results,
      rolesIntersect roles item.roles = true := by
  intro item hitem
  rw [search_results] at hitem
  split at hitem
  · rcases mem_fallbackResults hitem with ⟨i, _, hstep⟩
    rcases fallbackStep_some hstep with ⟨chunk, b, _, _, hr, rfl⟩
    exact hr
  · rcases mem_primaryLoop hitem with ⟨i, _, hstep⟩
    rcases primaryStep_some hstep with ⟨chunk, f, _, _, hr, _, rfl⟩
    exact hr

/-- Witness for C1 at a concrete corpus and query: the single returned
item's roles intersect the caller's roles. -/
theorem C1_role_filter_safety_witness :
    rolesIntersect ["staff"]
      ((search [chunkA] (1 / 2) [0] [0] "law" ["staff"] 5 [0] [0]).results.headI.roles)
      = true :=
  C1_role_filter_safety [chunkA] (1 / 2) [0] [0] "law" ["staff"] 5 [0] [0] _
    (by rw [resA_eval]; exact List.mem_cons_self _ _)

/-- C2 counterexample.  At the corpus `[chunkA]` with both raw score
vectors zero, the lowercased query `"zzz"` is not contained in the
chunk's normalized text, so the claimed formula
`alpha * semantic + (1 - alpha) * lexical` (with no literal bonus due)
gives `0`; the code produces `3/10` because of the per-keyword `0.15`
boosts (`criminal`, `law`).  Moreover, for `chunkC2` the full
whitespace-normalized query `"a b"` IS contained in the chunk text while
the code's actual test string `"a  b"` is not, and the fused score is
`0`: the bonus the claim requires for normalized-query containment is
not added. -/
theorem C2_fused_composition_cex :
    (strContains chunkA.norm_text (stripStr (lowerStr "zzz")) = false ∧
      fusedOf (1 / 2) [0] [0] [chunkA] (stripStr (lowerStr "zzz")) = [3 / 10] ∧
      (1 / 2 : ℚ) * (normalizeScores [0]).getD 0 0
        + (1 - 1 / 2) * (normalizeScores [0]).getD 0 0 = 0 ∧
      (3 / 10 : ℚ) ≠ 0) ∧
    (strContains chunkC2.norm_text (normalize_text "a  b") = true ∧
      strContains chunkC2.norm_text (stripStr (lowerStr "a  b")) = false ∧
      fusedOf (1 / 2) [0] [0] [chunkC2] (stripStr (lowerStr "a  b")) = [0]) := by
  refine ⟨⟨by decide, fusedA_zzz_eval, ?_, by norm_num⟩, by decide, by decide, fusedC2b_eval⟩
  rw [normalizeScores_zero]
  norm_num

/-- C2 amended.  Fused-score composition as the code actually computes
it: each chunk's fused score is `alpha` times its normalized semantic
score plus `(1 - alpha)` times its normalized lexical score, plus `0.15`
for every one of the eight fixed legal keywords contained in the chunk's
normalized text, plus a `0.25` literal-match bonus added exactly when
the chunk's normalized text contains the lowercased, stripped (not
whitespace-normalized) query string as a substring. -/
theorem C2_fused_composition_amended (alpha : ℚ) (bm25 vec : List ℚ) (meta : List Chunk)
    (ql : String) (i : ℕ) (hi : i < meta.length) (hb : meta.length = bm25.length)
    (hv : meta.length = vec.length) :
    (fusedOf alpha bm25 vec meta ql).getD i 0
      = alpha * (normalizeScores vec).getD i 0
        + (1 - alpha) * (normalizeScores bm25).getD i 0
        + (3 / 20) * ((importantKeywords.filter
            (fun w => strContains (meta.getD i default).norm_text w)).length : ℚ)
        + (if strContains (meta.getD i default).norm_text ql then 1 / 4 else 0) := by
  unfold fusedOf applyBoosts
  have hvlen : i < (normalizeScores vec).length := by
    rw [normalizeScores_length]
    omega
  have hblen : i < (normalizeScores bm25).length := by
    rw [normalizeScores_length]
    omega
  have hfb : i < (fusedBase alpha (normalizeScores vec) (normalizeScores bm25)).length := by
    simp only [fusedBase, List.length_zipWith]
    omega
  rw [zipWith_getD _ default (0 : ℚ) (0 : ℚ) _ _ _ hi hfb]
  dsimp only
  rw [foldl_keyword]
  unfold fusedBase
  rw [zipWith_getD _ (0 : ℚ) (0 : ℚ) (0 : ℚ) _ _ _ hvlen hblen]
  by_cases hl : strContains (meta.getD i default).norm_text ql = true
  · rw [if_pos hl, if_pos hl]
  · rw [if_neg hl, if_neg hl]
    ring

/-- Witness for the amended C2 at a concrete instance. -/
theorem C2_fused_composition_witness :
    (fusedOf (1 / 2) [0] [0] [chunkA] (stripStr (lowerStr "zzz"))).getD 0 0
      = (1 / 2 : ℚ) * (normalizeScores [0]).getD 0 0
        + (1 - 1 / 2) * (normalizeScores [0]).getD 0 0
        + (3 / 20) * ((importantKeywords.filter
            (fun w => strContains (([chunkA] : List Chunk).getD 0 default).norm_text w)).length : ℚ)
        + (if strContains (([chunkA] : List Chunk).getD 0 default).norm_text
            (stripStr (lowerStr "zzz")) then 1 / 4 else 0) :=
  C2_fused_composition_amended (1 / 2) [0] [0] [chunkA] (stripStr (lowerStr "zzz")) 0
    (by decide) (by decide) (by decide)

/-- C4.  Relevance-floor enforcement: every item the primary pass emits
has a reported (3-decimal-rounded) score of at least `0.05`, and any
index whose fused score is below `0.05` is dropped by the loop body
(`primaryStep` returns `none`), so it never occupies a `topk` slot. -/
theorem C4_relevance_floor (meta : List Chunk) (alpha : ℚ) (bm25 vec : List ℚ)
    (query : String) (roles : List String) (topk : ℕ) (ri : List ℕ) :
    (∀ item ∈ primaryResults meta alpha bm25 vec query roles topk ri,
      (1 / 20 : ℚ) ≤ item.score) ∧
    (∀ i c f, meta[i]? = some c
      → (fusedOf alpha bm25 vec meta (stripStr (lowerStr query)))[i]? = some f
      → f < 1 / 20
      → primaryStep roles (splitWS (normalize_text query)) meta
          (fusedOf alpha bm25 vec meta (stripStr (lowerStr query))) i = none) := by
  constructor
  · intro item hitem
    rcases mem_primaryLoop hitem with ⟨i, _, hstep⟩
    rcases primaryStep_some hstep with ⟨chunk, f, _, _, _, hfl, rfl⟩
    show (1 / 20 : ℚ) ≤ round3 f
    calc (1 / 20 : ℚ) = round3 (1 / 20) := round3_at_floor.symm
      _ ≤ round3 f := round3_mono (not_lt.1 hfl)
  · intro i c f hc hf hlt
    unfold primaryStep
    rw [hc, hf]
    show (if rolesIntersect roles (c.roles.getD (assign_roles_from_filename c.doc_id)) then
          if f < 1 / 20 then none
          else some (primaryItem c f (c.roles.getD (assign_roles_from_filename c.doc_id))
            (splitWS (normalize_text query)))
        else none) = none
    by_cases hr : rolesIntersect roles (c.roles.getD (assign_roles_from_filename c.doc_id))
        = true
    · rw [if_pos hr, if_pos hlt]
    · rw [if_neg hr]

/-- Witness for C4: the surfaced item for `chunkA` has score `≥ 0.05`,
and the below-floor chunk `chunkNoRoles` (fused score `0`) is dropped. -/
theorem C4_relevance_floor_witness :
    ((1 / 20 : ℚ) ≤ itemA.score) ∧
    primaryStep ["staff"] (splitWS (normalize_text "zzz")) [chunkNoRoles]
      (fusedOf (1 / 2) [0] [0] [chunkNoRoles] (stripStr (lowerStr "zzz"))) 0 = none := by
  constructor
  · exact (C4_relevance_floor [chunkA] (1 / 2) [0] [0] "law" ["staff"] 5 [0]).1 itemA
      (by rw [primA_eval]; exact List.mem_cons_self _ _)
  · exact (C4_relevance_floor [chunkNoRoles] (1 / 2) [0] [0] "zzz" ["staff"] 5 [0]).2
      0 chunkNoRoles 0 rfl (by rw [fusedE_eval]; rfl) (by norm_num)

/-- C7 counterexample.  With `topk = 0` and one qualifying chunk the
primary loop still appends one item before the `break` test fires, so
the results list has length `1 > 0`, contradicting the claimed
`length ≤ topk` bound for every `topk` including zero. -/
theorem C7_result_count_cex :
    ¬ (search [chunkA] (1 / 2) [0] [0] "law" ["staff"] 0 [0] []).results.length ≤ 0 := by
  have hres : (search [chunkA] (1 / 2) [0] [0] "law" ["staff"] 0 [0] []).results
      = [itemA] := by
    rw [search_results, primD_eval]
    rfl
  intro h
  rw [hres] at h
  simp at h

/-- C7 amended.  Result-count bound as the code actually enforces it:
the returned results list has length at most `max topk 1` — at most
`topk` for every `topk ≥ 1` (and the fallback pass is bounded by `topk`
even at zero), but the primary pass can return one item when
`topk = 0` because the source checks the break condition only after
appending. -/
theorem C7_result_count_amended (meta : List Chunk) (alpha : ℚ) (bm25 vec : List ℚ)
    (query : String) (roles : List String) (topk : ℕ) (ri rf : List ℕ) :
    (search meta alpha bm25 vec query roles topk ri rf).results.length ≤ max topk 1 := by
  rw [search_results]
  split
  · calc (fallbackResults roles (splitWS (normalize_text query)) meta
          (normalizeScores bm25) rf topk).length
        ≤ (rf.take topk).length := List.length_filterMap_le _ _
      _ ≤ topk := by
          rw [List.length_take]
          omega
      _ ≤ max topk 1 := le_max_left _ _
  · unfold primaryResults
    rw [primaryLoop_eq_take]
    calc ((ri.filterMap (primaryStep roles (splitWS (normalize_text query)) meta
          (fusedOf alpha bm25 vec meta (stripStr (lowerStr query))))).take
            (max (topk - 0) 1)).length
        ≤ max (topk - 0) 1 := List.length_take_le _ _
      _ = max topk 1 := by omega

theorem fusedC_eval :
    fusedOf (1 / 2) [0, 0] [0, 0] [chunkA, chunkB] (stripStr (lowerStr "zzz"))
      = [3 / 10, 3 / 10] := by
  unfold fusedOf
  rw [normalizeScores_zero2, fusedBase_zero2]
  simp only [applyBoosts, List.zipWith]
  rw [foldl_keyword, foldl_keyword]
  rw [show (importantKeywords.filter (fun w => strContains chunkA.norm_text w)).length = 2
    from by decide]
  rw [show (importantKeywords.filter (fun w => strContains chunkB.norm_text w)).length = 2
    from by decide]
  rw [if_neg (show ¬ strContains chunkA.norm_text (stripStr (lowerStr "zzz")) = true
    from by decide)]
  rw [if_neg (show ¬ strContains chunkB.norm_text (stripStr (lowerStr "zzz")) = true
    from by decide)]
  norm_num

theorem stepC_A : primaryStep ["staff"] ["zzz"] [chunkA, chunkB] [3 / 10, 3 / 10] 0
    = some itemA2 := by
  have hred : primaryStep ["staff"] ["zzz"] [chunkA, chunkB] [3 / 10, 3 / 10] 0
      = (if rolesIntersect ["staff"]
            (chunkA.roles.getD (assign_roles_from_filename chunkA.doc_id)) then
          if (3 / 10 : ℚ) < 1 / 20 then none
          else some (primaryItem chunkA (3 / 10)
            (chunkA.roles.getD (assign_roles_from_filename chunkA.doc_id)) ["zzz"])
        else none) := rfl
  rw [hred, if_pos (by decide), if_neg (by norm_num)]
  rfl

theorem stepC_B : primaryStep ["staff"] ["zzz"] [chunkA, chunkB] [3 / 10, 3 / 10] 1
    = some itemB2 := by
  have hred : primaryStep ["staff"] ["zzz"] [chunkA, chunkB] [3 / 10, 3 / 10] 1
      = (if rolesIntersect ["staff"]
            (chunkB.roles.getD (assign_roles_from_filename chunkB.doc_id)) then
          if (3 / 10 : ℚ) < 1 / 20 then none
          else some (primaryItem chunkB (3 / 10)
            (chunkB.roles.getD (assign_roles_from_filename chunkB.doc_id)) ["zzz"])
        else none) := rfl
  rw [hred, if_pos (by decide), if_neg (by norm_num)]
  rfl

theorem primC10_eval :
    primaryResults [chunkA, chunkB] (1 / 2) [0, 0] [0, 0] "zzz" ["staff"] 5 [1, 0]
      = [itemB2, itemA2] := by
  unfold primaryResults
  rw [show splitWS (normalize_text "zzz") = ["zzz"] from by decide, fusedC_eval]
  have hloop1 : primaryLoop ["staff"] ["zzz"] [chunkA, chunkB] [3 / 10, 3 / 10] 5 [1, 0] 0
      = (match primaryStep ["staff"] ["zzz"] [chunkA, chunkB] [3 / 10, 3 / 10] 1 with
        | none => primaryLoop ["staff"] ["zzz"] [chunkA, chunkB] [3 / 10, 3 / 10] 5 [0] 0
        | some item => if 5 ≤ 0 + 1 then [item]
            else item :: primaryLoop ["staff"] ["zzz"] [chunkA, chunkB] [3 / 10, 3 / 10] 5
              [0] 1) := rfl
  have hloop2 : primaryLoop ["staff"] ["zzz"] [chunkA, chunkB] [3 / 10, 3 / 10] 5 [0] 1
      = (match primaryStep ["staff"] ["zzz"] [chunkA, chunkB] [3 / 10, 3 / 10] 0 with
        | none => primaryLoop ["staff"] ["zzz"] [chunkA, chunkB] [3 / 10, 3 / 10] 5 [] 1
        | some item => if 5 ≤ 1 + 1 then [item]
            else item :: primaryLoop ["staff"] ["zzz"] [chunkA, chunkB] [3 / 10, 3 / 10] 5
              [] 2) := rfl
  rw [hloop1, stepC_B, hloop2, stepC_A]
  rfl

theorem primC01_eval :
    primaryResults [chunkA, chunkB] (1 / 2) [0, 0] [0, 0] "zzz" ["staff"] 5 [0, 1]
      = [itemA2, itemB2] := by
  unfold primaryResults
  rw [show splitWS (normalize_text "zzz") = ["zzz"] from by decide, fusedC_eval]
  have hloop1 : primaryLoop ["staff"] ["zzz"] [chunkA, chunkB] [3 / 10, 3 / 10] 5 [0, 1] 0
      = (match primaryStep ["staff"] ["zzz"] [chunkA, chunkB] [3 / 10, 3 / 10] 0 with
        | none => primaryLoop ["staff"] ["zzz"] [chunkA, chunkB] [3 / 10, 3 / 10] 5 [1] 0
        | some item => if 5 ≤ 0 + 1 then [item]
            else item :: primaryLoop ["staff"] ["zzz"] [chunkA, chunkB] [3 / 10, 3 / 10] 5
              [1] 1) := rfl
  have hloop2 : primaryLoop ["staff"] ["zzz"] [chunkA, chunkB] [3 / 10, 3 / 10] 5 [1] 1
      = (match primaryStep ["staff"] ["zzz"] [chunkA, chunkB] [3 / 10, 3 / 10] 1 with
        | none => primaryLoop ["staff"] ["zzz"] [chunkA, chunkB] [3 / 10, 3 / 10] 5 [] 1
        | some item => if 5 ≤ 1 + 1 then [item]
            else item :: primaryLoop ["staff"] ["zzz"] [chunkA, chunkB] [3 / 10, 3 / 10] 5
              [] 2) := rfl
  rw [hloop1, stepC_A, hloop2, stepC_B]
  rfl

theorem resC10_eval :
    (search [chunkA, chunkB] (1 / 2) [0, 0] [0, 0] "zzz" ["staff"] 5 [1, 0] []).results
      = [itemB2, itemA2] := by
  rw [search_results, primC10_eval]
  rfl

theorem stepB_eval : primaryStep ["Staff"] ["law"] [chunkA] [11 / 20] 0 = none := by
  have hred : primaryStep ["Staff"] ["law"] [chunkA] [11 / 20] 0
      = (if rolesIntersect ["Staff"]
            (chunkA.roles.getD (assign_roles_from_filename chunkA.doc_id)) then
          if (11 / 20 : ℚ) < 1 / 20 then none
          else some (primaryItem chunkA (11 / 20)
            (chunkA.roles.getD (assign_roles_from_filename chunkA.doc_id)) ["law"])
        else none) := rfl
  rw [hred, if_neg (by decide)]

theorem primB_eval :
    primaryResults [chunkA] (1 / 2) [0] [0] "law" ["Staff"] 5 [0] = [] := by
  unfold primaryResults
  rw [show splitWS (normalize_text "law") = ["law"] from by decide, fusedA_eval]
  have hloop : primaryLoop ["Staff"] ["law"] [chunkA] [11 / 20] 5 [0] 0
      = (match primaryStep ["Staff"] ["law"] [chunkA] [11 / 20] 0 with
        | none => primaryLoop ["Staff"] ["law"] [chunkA] [11 / 20] 5 [] 0
        | some item => if 5 ≤ 0 + 1 then [item]
            else item :: primaryLoop ["Staff"] ["law"] [chunkA] [11 / 20] 5 [] 1) := rfl
  rw [hloop, stepB_eval]
  rfl

theorem fbB_eval :
    fallbackResults ["Staff"] ["law"] [chunkA] (normalizeScores [0]) [0] 5 = [] := by
  rw [normalizeScores_zero]
  have hstep : fallbackStep ["Staff"] ["law"] [chunkA] [0] 0 = none := by
    have hred : fallbackStep ["Staff"] ["law"] [chunkA] [0] 0
        = (if rolesIntersect ["Staff"] (chunkA.roles.getD []) then
            some (fallbackItem chunkA 0 ["law"])
          else none) := rfl
    rw [hred, if_neg (by decide)]
  have hru : fallbackResults ["Staff"] ["law"] [chunkA] [0] [0] 5
      = (match fallbackStep ["Staff"] ["law"] [chunkA] [0] 0 with
        | none => List.filterMap (fallbackStep ["Staff"] ["law"] [chunkA] [0]) []
        | some b => b :: List.filterMap (fallbackStep ["Staff"] ["law"] [chunkA] [0]) []) :=
    rfl
  rw [hru, hstep]
  rfl

theorem resB_eval :
    (search [chunkA] (1 / 2) [0] [0] "law" ["Staff"] 5 [0] [0]).results = [] := by
  rw [search_results, primB_eval]
  show fallbackResults ["Staff"] (splitWS (normalize_text "law")) [chunkA]
    (normalizeScores [0]) [0] 5 = []
  rw [show splitWS (normalize_text "law") = ["law"] from by decide]
  exact fbB_eval

theorem stepE_eval : primaryStep ["staff"] ["zzz"] [chunkNoRoles] [0] 0 = none := by
  have hred : primaryStep ["staff"] ["zzz"] [chunkNoRoles] [0] 0
      = (if rolesIntersect ["staff"]
            (chunkNoRoles.roles.getD (assign_roles_from_filename chunkNoRoles.doc_id)) then
          if (0 : ℚ) < 1 / 20 then none
          else some (primaryItem chunkNoRoles 0
            (chunkNoRoles.roles.getD (assign_roles_from_filename chunkNoRoles.doc_id))
            ["zzz"])
        else none) := rfl
  rw [hred, if_pos (by decide), if_pos (by norm_num)]

theorem primE_eval :
    primaryResults [chunkNoRoles] (1 / 2) [0] [0] "zzz" ["staff"] 5 [0] = [] := by
  unfold primaryResults
  rw [show splitWS (normalize_text "zzz") = ["zzz"] from by decide, fusedE_eval]
  have hloop : primaryLoop ["staff"] ["zzz"] [chunkNoRoles] [0] 5 [0] 0
      = (match primaryStep ["staff"] ["zzz"] [chunkNoRoles] [0] 0 with
        | none => primaryLoop ["staff"] ["zzz"] [chunkNoRoles] [0] 5 [] 0
        | some item => if 5 ≤ 0 + 1 then [item]
            else item :: primaryLoop ["staff"] ["zzz"] [chunkNoRoles] [0] 5 [] 1) := rfl
  rw [hloop, stepE_eval]
  rfl

theorem fbE_eval :
    fallbackResults ["staff"] ["zzz"] [chunkNoRoles] (normalizeScores [0]) [0] 5 = [] := by
  rw [normalizeScores_zero]
  have hstep : fallbackStep ["staff"] ["zzz"] [chunkNoRoles] [0] 0 = none := by
    have hred : fallbackStep ["staff"] ["zzz"] [chunkNoRoles] [0] 0
        = (if rolesIntersect ["staff"] (chunkNoRoles.roles.getD []) then
            some (fallbackItem chunkNoRoles 0 ["zzz"])
          else none) := rfl
    rw [hred, if_neg (by decide)]
  have hru : fallbackResults ["staff"] ["zzz"] [chunkNoRoles] [0] [0] 5
      = (match fallbackStep ["staff"] ["zzz"] [chunkNoRoles] [0] 0 with
        | none => List.filterMap (fallbackStep ["staff"] ["zzz"] [chunkNoRoles] [0]) []
        | some b =>
            b :: List.filterMap (fallbackStep ["staff"] ["zzz"] [chunkNoRoles] [0]) []) :=
    rfl
  rw [hru, hstep]
  rfl

theorem resE_eval :
    (search [chunkNoRoles] (1 / 2) [0] [0] "zzz" ["staff"] 5 [0] [0]).results = [] := by
  rw [search_results, primE_eval]
  show fallbackResults ["staff"] (splitWS (normalize_text "zzz")) [chunkNoRoles]
    (normalizeScores [0]) [0] 5 = []
  rw [show splitWS (normalize_text "zzz") = ["zzz"] from by decide]
  exact fbE_eval

/-- C3.  Fallback and no-match sentinel: when the primary
fused-and-filtered pass produces nothing, the returned results are
exactly the fallback pass's — ranked purely by normalized BM25 score
(descending, whenever the fallback index list is a valid argsort of the
BM25 vector), role-filtered, with no relevance floor (every
role-permitted entry among the first `topk` ranked indices is included),
and at most `topk` of them; and when the fallback too is empty, the
output is the fixed sentinel answer with an empty results list — the
embedded `search` is a total function, so no exception is possible. -/
theorem C3_fallback_and_sentinel (meta : List Chunk) (alpha : ℚ) (bm25 vec : List ℚ)
    (query : String) (roles : List String) (topk : ℕ) (ri rf : List ℕ)
    (hempty : primaryResults meta alpha bm25 vec query roles topk ri = []) :
    (search meta alpha bm25 vec query roles topk ri rf).results
        = fallbackResults roles (splitWS (normalize_text query)) meta
            (normalizeScores bm25) rf topk ∧
    (search meta alpha bm25 vec query roles topk ri rf).results.length ≤ topk ∧
    (∀ i ∈ rf.take topk, ∀ item,
      fallbackStep roles (splitWS (normalize_text query)) meta (normalizeScores bm25) i
          = some item →
        item ∈ (search meta alpha bm25 vec query roles topk ri rf).results) ∧
    (IsArgsortDesc (normalizeScores bm25) rf →
      (search meta alpha bm25 vec query roles topk ri rf).results.Pairwise
        (fun a b => b.score ≤ a.score)) ∧
    ((search meta alpha bm25 vec query roles topk ri rf).results = [] →
      search meta alpha bm25 vec query roles topk ri rf
        = ⟨noRelevantSentinel, []⟩) := by
  have hres : (search meta alpha bm25 vec query roles topk ri rf).results
      = fallbackResults roles (splitWS (normalize_text query)) meta
          (normalizeScores bm25) rf topk := by
    rw [search_results, hempty]
    rfl
  refine ⟨hres, ?_, ?_, ?_, ?_⟩
  · rw [hres]
    calc (fallbackResults roles (splitWS (normalize_text query)) meta
          (normalizeScores bm25) rf topk).length
        ≤ (rf.take topk).length := List.length_filterMap_le _ _
      _ ≤ topk := by
          rw [List.length_take]
          omega
  · intro i hi item hstep
    rw [hres]
    exact List.mem_filterMap.2 ⟨i, hi, hstep⟩
  · intro hsort
    rw [hres]
    unfold fallbackResults
    rw [List.pairwise_filterMap]
    have htake := hsort.2.sublist (List.take_sublist topk rf)
    refine htake.imp ?_
    intro a b hab x hx y hy
    rw [Option.mem_def] at hx hy
    rcases fallbackStep_some hx with ⟨ca, ba, _, hba, _, rfl⟩
    rcases fallbackStep_some hy with ⟨cb, bb, _, hbb, _, rfl⟩
    show round3 bb ≤ round3 ba
    apply round3_mono
    have h1 : (normalizeScores bm25).getD a 0 = ba := by
      rw [List.getD_eq_getElem?_getD, hba]
      rfl
    have h2 : (normalizeScores bm25).getD b 0 = bb := by
      rw [List.getD_eq_getElem?_getD, hbb]
      rfl
    rw [← h1, ← h2]
    exact hab
  · intro hnil
    have hans : (search meta alpha bm25 vec query roles topk ri rf).answer
        = noRelevantSentinel := by
      have hdef : (search meta alpha bm25 vec query roles topk ri rf).answer
          = (match (search meta alpha bm25 vec query roles topk ri rf).results with
            | [] => noRelevantSentinel
            | item :: _ => item.excerpt) := rfl
      rw [hdef, hnil]
    have heta : search meta alpha bm25 vec query roles topk ri rf
        = ⟨(search meta alpha bm25 vec query roles topk ri rf).answer,
           (search meta alpha bm25 vec query roles topk ri rf).results⟩ := rfl
    rw [heta, hans, hnil]

/-- Witness for C3 at a corpus where both passes come up empty: the
search returns the sentinel answer and an empty results list. -/
theorem C3_fallback_and_sentinel_witness :
    search [chunkNoRoles] (1 / 2) [0] [0] "zzz" ["staff"] 5 [0] [0]
      = ⟨noRelevantSentinel, []⟩ := by
  have h := C3_fallback_and_sentinel [chunkNoRoles] (1 / 2) [0] [0] "zzz" ["staff"] 5
    [0] [0] primE_eval
  apply h.2.2.2.2
  rw [h.1, show splitWS (normalize_text "zzz") = ["zzz"] from by decide]
  exact fbE_eval

/-- C5 counterexample.  Two chunks with exactly equal fused scores
(`3/10` each): the index order `[1, 0]` is a legitimate output of
`numpy.argsort` on these scores (it satisfies everything `argsort`
guarantees, and the default sort kind is unstable), yet the results then
come out as `doc1` before `doc0` — the reverse of the original corpus
order — so the claimed stable tie-break does not hold for the code. -/
theorem C5_rank_stability_cex :
    IsArgsortDesc (fusedOf (1 / 2) [0, 0] [0, 0] [chunkA, chunkB]
      (stripStr (lowerStr "zzz"))) [1, 0] ∧
    (search [chunkA, chunkB] (1 / 2) [0, 0] [0, 0] "zzz" ["staff"] 5 [1, 0] []).results.map
      (fun r => r.doc_id) = ["doc1", "doc0"] ∧
    chunkA.doc_id = "doc0" ∧ chunkB.doc_id = "doc1" := by
  refine ⟨?_, ?_, rfl, rfl⟩
  · rw [fusedC_eval]
    refine ⟨by decide, ?_⟩
    norm_num [List.pairwise_cons, List.getD]
  · rw [resC10_eval]
    rfl

/-- C5 amended.  The primary pass does return items in non-increasing
fused-score order (for every ranked index list `numpy.argsort` could
produce), but the order of equal-score chunks is unspecified because the
default `argsort` sort kind is unstable — original corpus order on ties
is not guaranteed. -/
theorem C5_ranking_desc_amended (meta : List Chunk) (alpha : ℚ) (bm25 vec : List ℚ)
    (query : String) (roles : List String) (topk : ℕ) (ri : List ℕ)
    (hsort : IsArgsortDesc (fusedOf alpha bm25 vec meta (stripStr (lowerStr query))) ri) :
    (primaryResults meta alpha bm25 vec query roles topk ri).Pairwise
      (fun a b => b.score ≤ a.score) := by
  unfold primaryResults
  rw [primaryLoop_eq_take]
  have hfm : (ri.filterMap (primaryStep roles (splitWS (normalize_text query)) meta
      (fusedOf alpha bm25 vec meta (stripStr (lowerStr query))))).Pairwise
      (fun a b => b.score ≤ a.score) := by
    rw [List.pairwise_filterMap]
    refine hsort.2.imp ?_
    intro a b hab x hx y hy
    rw [Option.mem_def] at hx hy
    rcases primaryStep_some hx with ⟨ca, fa, _, hfa, _, _, rfl⟩
    rcases primaryStep_some hy with ⟨cb, fb, _, hfb, _, _, rfl⟩
    show round3 fb ≤ round3 fa
    apply round3_mono
    have h1 : (fusedOf alpha bm25 vec meta (stripStr (lowerStr query))).getD a 0 = fa := by
      rw [List.getD_eq_getElem?_getD, hfa]
      rfl
    have h2 : (fusedOf alpha bm25 vec meta (stripStr (lowerStr query))).getD b 0 = fb := by
      rw [List.getD_eq_getElem?_getD, hfb]
      rfl
    rw [← h1, ← h2]
    exact hab
  exact hfm.sublist (List.take_sublist _ _)

/-- Witness for the amended C5: a valid argsort order of the tied-score
corpus yields results in non-increasing score order. -/
theorem C5_ranking_desc_witness :
    (primaryResults [chunkA, chunkB] (1 / 2) [0, 0] [0, 0] "zzz" ["staff"] 5
      [0, 1]).Pairwise (fun a b => b.score ≤ a.score) := by
  refine C5_ranking_desc_amended [chunkA, chunkB] (1 / 2) [0, 0] [0, 0] "zzz" ["staff"] 5
    [0, 1] ?_
  rw [fusedC_eval]
  refine ⟨by decide, ?_⟩
  norm_num [List.pairwise_cons, List.getD]

/-- C6 counterexample.  The caller role `"Staff"` and the chunk role
`"staff"` intersect case-insensitively, yet the chunk (with a passing
fused score) is excluded from both passes: the code's role test is
case-sensitive, so the claimed case-insensitive matching is false. -/
theorem C6_case_insensitive_cex :
    rolesIntersectCI ["Staff"] ["staff"] = true ∧
    chunkA.roles = some ["staff"] ∧
    (search [chunkA] (1 / 2) [0] [0] "law" ["Staff"] 5 [0] [0]).results = [] :=
  ⟨by decide, rfl, resB_eval⟩

/-- C6 amended.  Role matching is a case-sensitive exact-string set
intersection: given a chunk record and fused score above the floor, the
primary loop body drops the chunk exactly when the exact intersection of
the caller's roles with the chunk's effective roles is empty, and
otherwise emits the chunk's full result record (never a partial one). -/
theorem C6_role_matching_amended (roles tokens : List String) (meta : List Chunk)
    (fus : List ℚ) (i : ℕ) (c : Chunk) (f : ℚ) (hc : meta[i]? = some c)
    (hf : fus[i]? = some f) (hfloor : ¬ f < 1 / 20) :
    (primaryStep roles tokens meta fus i = none ↔
      rolesIntersect roles (c.roles.getD (assign_roles_from_filename c.doc_id)) = false) ∧
    (rolesIntersect roles (c.roles.getD (assign_roles_from_filename c.doc_id)) = true →
      primaryStep roles tokens meta fus i
        = some (primaryItem c f (c.roles.getD (assign_roles_from_filename c.doc_id))
            tokens)) := by
  have hstep : primaryStep roles tokens meta fus i
      = (if rolesIntersect roles (c.roles.getD (assign_roles_from_filename c.doc_id)) then
          if f < 1 / 20 then none
          else some (primaryItem c f (c.roles.getD (assign_roles_from_filename c.doc_id))
            tokens)
        else none) := by
    unfold primaryStep
    rw [hc, hf]
  constructor
  · rw [hstep]
    by_cases hr : rolesIntersect roles (c.roles.getD (assign_roles_from_filename c.doc_id))
        = true
    · rw [if_pos hr, if_neg hfloor]
      simp [hr]
    · have hrf : rolesIntersect roles (c.roles.getD (assign_roles_from_filename c.doc_id))
          = false := by
        cases hb : rolesIntersect roles (c.roles.getD (assign_roles_from_filename c.doc_id))
        · rfl
        · exact absurd hb hr
      rw [if_neg hr]
      simp [hrf]
  · intro hr
    rw [hstep, if_pos hr, if_neg hfloor]

/-- Witness for the amended C6: the empty case-sensitive intersection
for caller `["Staff"]` against chunk roles `["staff"]` drops the chunk. -/
theorem C6_role_matching_witness :
    primaryStep ["Staff"] ["law"] [chunkA] [11 / 20] 0 = none :=
  ((C6_role_matching_amended ["Staff"] ["law"] [chunkA] [11 / 20] 0 chunkA (11 / 20) rfl rfl
    (by norm_num)).1).2 (by decide)

/-- C8 counterexample.  A chunk record with no stored `roles` key is
silently excluded in the fallback pass: its roles default to the empty
list there (`chunk.get("roles", [])`), so the empty intersection drops
it and `search` returns no results — contradicting the claim that a
role-undetermined chunk falls back to a permissive default in both
passes and is never silently excluded. -/
theorem C8_roles_default_cex :
    chunkNoRoles.roles = none ∧
    (search [chunkNoRoles] (1 / 2) [0] [0] "zzz" ["staff"] 5 [0] [0]).results = [] :=
  ⟨rfl, resE_eval⟩

/-- C8 amended.  Ingestion always assigns a non-empty role set from the
filename (`{legal, admin}` when it contains the `restricted` marker,
`{staff, legal, admin}` otherwise).  At query time, only the primary
pass substitutes that filename-derived default for a missing `roles`
key; the fallback pass substitutes the empty list instead, so a
role-undetermined chunk record is always excluded from the fallback
pass. -/
theorem C8_roles_invariant_amended :
    (∀ fn : String, assign_roles_from_filename fn ≠ [] ∧
      (strContains (lowerStr fn) "restricted" = true →
        assign_roles_from_filename fn = ["legal", "admin"]) ∧
      (strContains (lowerStr fn) "restricted" = false →
        assign_roles_from_filename fn = ["staff", "legal", "admin"])) ∧
    (∀ (roles tokens : List String) (meta : List Chunk) (fus : List ℚ) (i : ℕ) (c : Chunk)
      (f : ℚ), meta[i]? = some c → c.roles = none → fus[i]? = some f →
      primaryStep roles tokens meta fus i
        = (if rolesIntersect roles (assign_roles_from_filename c.doc_id) then
            if f < 1 / 20 then none
            else some (primaryItem c f (assign_roles_from_filename c.doc_id) tokens)
          else none)) ∧
    (∀ (roles tokens : List String) (meta : List Chunk) (bm25N : List ℚ) (i : ℕ)
      (c : Chunk), meta[i]? = some c → c.roles = none →
      fallbackStep roles tokens meta bm25N i = none) := by
  refine ⟨?_, ?_, ?_⟩
  · intro fn
    unfold assign_roles_from_filename
    by_cases hr : strContains (lowerStr fn) "restricted" = true
    · rw [if_pos hr]
      exact ⟨by simp, fun _ => rfl, fun h => absurd hr (by simp [h])⟩
    · rw [if_neg hr]
      exact ⟨by simp, fun h => absurd h hr, fun _ => rfl⟩
  · intro roles tokens meta fus i c f hc hcr hf
    unfold primaryStep
    rw [hc, hf]
    show (if rolesIntersect roles (c.roles.getD (assign_roles_from_filename c.doc_id)) then
          if f < 1 / 20 then none
          else some (primaryItem c f (c.roles.getD (assign_roles_from_filename c.doc_id))
            tokens)
        else none) = _
    rw [hcr, Option.getD_none]
  · intro roles tokens meta bm25N i c hc hcr
    unfold fallbackStep
    rw [hc]
    cases hb : bm25N[i]? with
    | none => rfl
    | some b =>
      show (if rolesIntersect roles (c.roles.getD []) then some (fallbackItem c b tokens)
          else none) = none
      rw [hcr, Option.getD_none]
      rw [if_neg]
      simp [rolesIntersect]

/-- Witness for the amended C8 on concrete inputs: the two-tier filename
policy, a primary-pass lookup that uses the filename default for a
role-less chunk, and the fallback-pass exclusion of that chunk. -/
theorem C8_roles_invariant_witness :
    assign_roles_from_filename "restricted_report" = ["legal", "admin"] ∧
    primaryStep ["staff"] ["zzz"] [chunkNoRoles] [0] 0
      = (if rolesIntersect ["staff"] (assign_roles_from_filename chunkNoRoles.doc_id) then
          if (0 : ℚ) < 1 / 20 then none
          else some (primaryItem chunkNoRoles 0
            (assign_roles_from_filename chunkNoRoles.doc_id) ["zzz"])
        else none) ∧
    fallbackStep ["staff"] ["zzz"] [chunkNoRoles] [0] 0 = none := by
  refine ⟨?_, ?_, ?_⟩
  · exact (C8_roles_invariant_amended.1 "restricted_report").2.1 (by decide)
  · exact C8_roles_invariant_amended.2.1 ["staff"] ["zzz"] [chunkNoRoles] [0] 0 chunkNoRoles
      0 rfl rfl rfl
  · exact C8_roles_invariant_amended.2.2 ["staff"] ["zzz"] [chunkNoRoles] [0] 0 chunkNoRoles
      rfl rfl

theorem locateFind_mem : ∀ (ls : List LineRec) (c cum w : ℕ) (l : LineRec),
    locateFind ls c cum w = some l → l ∈ ls
  | [], _, _, _, _, h => by simp [locateFind] at h
  | x :: rest, c, cum, w, l, h => by
    simp only [locateFind] at h
    split at h
    · rw [← Option.some_inj.1 h]
      exact List.mem_cons_self _ _
    · exact List.mem_cons_of_mem _ (locateFind_mem rest c _ w l h)

theorem le_getLastD :
    ∀ (ls : List LineRec) (d : LineRec),
      ls.Pairwise (fun a b => a.page_num ≤ b.page_num) →
      ∀ l ∈ ls, l.page_num ≤ (ls.getLastD d).page_num
  | [], _, _, l, hl => by simp at hl
  | x :: rest, d, hpair, l, hl => by
    rw [List.getLastD_cons]
    rcases List.mem_cons.1 hl with he | hl'
    · rw [he]
      cases rest with
      | nil => exact le_refl _
      | cons y t =>
        have hmem : (y :: t).getLastD x ∈ x :: y :: t := List.getLastD_mem_cons _ _
        rcases List.mem_cons.1 hmem with he2 | hmem'
        · rw [he2]
        · exact (List.pairwise_cons.1 hpair).1 _ hmem'
    · cases rest with
      | nil => simp at hl'
      | cons y t => exact le_getLastD (y :: t) x (List.pairwise_cons.1 hpair).2 l hl'

theorem locateFind_mono (g : LineRec) :
    ∀ (ls : List LineRec) (cum c1 c2 w : ℕ), cum ≤ c1 → c1 ≤ c2 →
      ls.Pairwise (fun a b => a.page_num ≤ b.page_num) →
      (∀ l ∈ ls, l.page_num ≤ g.page_num) →
      ((locateFind ls c1 cum w).getD g).page_num
        ≤ ((locateFind ls c2 cum w).getD g).page_num
  | [], _, _, _, _, _, _, _, _ => le_refl _
  | x :: rest, cum, c1, c2, w, hcum, hc, hpair, hg => by
    simp only [locateFind]
    by_cases h1 : c1 < cum + (x.text.length + 1) + w
    · rw [if_pos ⟨hcum, h1⟩]
      by_cases h2 : c2 < cum + (x.text.length + 1) + w
      · rw [if_pos ⟨le_trans hcum hc, h2⟩]
      · rw [if_neg (fun hand => h2 hand.2)]
        cases hfind : locateFind rest c2 (cum + (x.text.length + 1)) w with
        | none => simpa [hfind] using hg x (List.mem_cons_self _ _)
        | some l2 =>
          have hl2 := locateFind_mem rest c2 _ w l2 hfind
          simpa [hfind] using (List.pairwise_cons.1 hpair).1 l2 hl2
    · rw [if_neg (fun hand => h1 hand.2)]
      have h2 : ¬ c2 < cum + (x.text.length + 1) + w := by omega
      rw [if_neg (fun hand => h2 hand.2)]
      exact locateFind_mono g rest (cum + (x.text.length + 1)) c1 c2 w (by omega) hc
        (List.pairwise_cons.1 hpair).2 (fun l hl => hg l (List.mem_cons_of_mem _ hl))

theorem structuredChunks_pages (lines : List LineRec) (textLen : ℕ) (fullText : List Char)
    (hpair : lines.Pairwise (fun a b => a.page_num ≤ b.page_num)) :
    ∀ (ms : List (ℕ × String)), ms.Chain' (fun a b => a.1 < b.1) →
      (∀ m ∈ ms, m.1 ≤ textLen) →
      ∀ ch ∈ structuredChunks lines textLen fullText ms, ch.page_start ≤ ch.page_end
  | [], _, _, ch, hch => by simp [structuredChunks] at hch
  | (s, lab) :: rest, hchain, hbound, ch, hch => by
    simp only [structuredChunks] at hch
    rcases List.mem_cons.1 hch with rfl | hch'
    · cases rest with
      | nil =>
        have hse : s ≤ textLen := hbound (s, lab) (List.mem_cons_self _ _)
        exact locateFind_mono (lines.getLastD ⟨0, 0, ""⟩) lines 0 s textLen 250
          (Nat.zero_le _) hse hpair (le_getLastD lines _ hpair)
      | cons m2 t =>
        have hse : s ≤ m2.1 := le_of_lt (List.chain'_cons.1 hchain).1
        exact locateFind_mono (lines.getLastD ⟨0, 0, ""⟩) lines 0 s m2.1 250
          (Nat.zero_le _) hse hpair (le_getLastD lines _ hpair)
    · exact structuredChunks_pages lines textLen fullText hpair rest hchain.tail
        (fun m hm => hbound m (List.mem_cons_of_mem _ hm)) ch hch'

theorem fbLoop_pages (artNo : String) (last : LineRec) :
    ∀ (rem : List LineRec) (buffer : List Char) (started : Bool) (sp sl wc : ℕ),
      rem.Pairwise (fun a b => a.page_num ≤ b.page_num) →
      (∀ l ∈ rem, l.page_num ≤ last.page_num) →
      (started = true → (∀ l ∈ rem, sp ≤ l.page_num) ∧ sp ≤ last.page_num) →
      (started = false → buffer = []) →
      ∀ ch ∈ fbLoop artNo last rem buffer started sp sl wc,
        ch.page_start ≤ ch.page_end
  | [], buffer, started, sp, sl, wc, _, _, hst, hbuf, ch, hch => by
    simp only [fbLoop] at hch
    split at hch
    · simp at hch
    · rename_i hne
      rw [List.mem_singleton] at hch
      subst hch
      show sp ≤ last.page_num
      have hstart : started = true := by
        cases hcs : started
        · rw [hbuf hcs] at hne
          simp [stripList] at hne
        · rfl
      exact (hst hstart).2
  | l :: rest, buffer, started, sp, sl, wc, hpair, hlast, hst, hbuf, ch, hch => by
    simp only [fbLoop] at hch
    have hsp2 : ∀ l2 ∈ rest, (if started = true then sp else l.page_num) ≤ l2.page_num := by
      intro l2 hl2
      split
      · rename_i hs
        exact (hst hs).1 l2 (List.mem_cons_of_mem _ hl2)
      · exact (List.pairwise_cons.1 hpair).1 l2 hl2
    have hspl : (if started = true then sp else l.page_num) ≤ last.page_num := by
      split
      · rename_i hs
        exact (hst hs).2
      · exact hlast l (List.mem_cons_self _ _)
    split at hch
    · rcases List.mem_cons.1 hch with he | hch'
      · rw [he]
        show (if started = true then sp else l.page_num) ≤ l.page_num
        split
        · rename_i hs
          exact (hst hs).1 l (List.mem_cons_self _ _)
        · exact le_refl _
      · exact fbLoop_pages artNo last rest [] false _ _ 0 (List.pairwise_cons.1 hpair).2
          (fun l2 hl2 => hlast l2 (List.mem_cons_of_mem _ hl2))
          (fun h => absurd h (by simp)) (fun _ => rfl) ch hch'
    · exact fbLoop_pages artNo last rest _ true _ _ _ (List.pairwise_cons.1 hpair).2
        (fun l2 hl2 => hlast l2 (List.mem_cons_of_mem _ hl2))
        (fun _ => ⟨hsp2, hspl⟩) (fun h => absurd h (by simp)) ch hch

theorem fallbackChunks_pages (lines : List LineRec)
    (hpair : lines.Pairwise (fun a b => a.page_num ≤ b.page_num)) :
    ∀ ch ∈ fallbackChunks lines, ch.page_start ≤ ch.page_end := by
  intro ch hch
  cases lines with
  | nil => simp [fallbackChunks] at hch
  | cons l0 rest =>
    exact fbLoop_pages "0" ((l0 :: rest).getLastD l0) (l0 :: rest) [] false l0.page_num
      l0.line_num 0 hpair (fun l hl => le_getLastD (l0 :: rest) l0 hpair l hl)
      (fun h => absurd h (by simp)) (fun _ => rfl) ch hch

/-- C9.  Chunk page-range invariant: for every list of extracted lines
whose page numbers are in non-decreasing reading order, and every match
list of the shape `re.finditer` produces (strictly increasing start
offsets inside the joined text), every chunk `chunk_text_universal`
emits — in the Article/Section pass and in the word-count fallback pass
alike — satisfies `page_start ≤ page_end`. -/
theorem C9_chunk_page_invariant (lines : List LineRec) (ms : List (ℕ × String))
    (hpair : PagesMono lines) (hfind : FinditerShape ms (joinTexts lines).length) :
    ∀ ch ∈ chunk_text_universal lines ms, ch.page_start ≤ ch.page_end := by
  unfold PagesMono at hpair
  unfold FinditerShape at hfind
  intro ch hch
  unfold chunk_text_universal at hch
  split at hch
  · exact fallbackChunks_pages lines hpair ch hch
  · exact structuredChunks_pages lines _ _ hpair ms hfind.1 hfind.2 ch hch

/-- Witness for C9 on a two-line, two-match document. -/
theorem C9_chunk_page_invariant_witness :
    (chunk_text_universal linesW msW).headI.page_start
      ≤ (chunk_text_universal linesW msW).headI.page_end :=
  C9_chunk_page_invariant linesW msW (by unfold PagesMono; decide)
    (by
      unfold FinditerShape
      refine ⟨?_, by decide⟩
      rw [show msW = [(0, "1"), (16, "2")] from rfl, List.chain'_cons]
      exact ⟨by decide, List.chain'_singleton _⟩)
    ((chunk_text_universal linesW msW).headI) (by decide)

end ArticleFinder
